import Mathlib

/-!
Verification of the WebDAV client (`src/app/lib/webdev-client.ts`).

The client is a protocol-translation layer exposing an S3-like interface over
WebDAV.  We shallowly embed the pure computational core of the client:

* the path resolver `getFullPath` (with the exact semantics of the JS regexes
  `^\/|\/$` (global) and `^\/` (non-global)),
* request construction for `copyObject` (basic-auth synthesis via `btoa`,
  endpoint normalization, URL assembly),
* the multi-status XML listing parser `parsePropfindResponse`, including the
  exact first-match semantics of the JS regexes used per response entry
  (`.` does not match line terminators; `[\s\S]` does), JS `parseInt`,
  the entity-decoder `decodeXml`, `decodeURIComponent` (percent + UTF-8
  decoding, failure = thrown URIError), and the comparator-based sort,
* the per-operation HTTP status classification of `deleteObject`,
  `createFolder`, `copyObject` and `headObject`, with the exact error
  messages and the re-wrapping of transport errors.

JS strings are modelled as `List Char`; a JS number that may be `NaN`
(result of `parseInt`) is modelled as `Option Int` with `none` for `NaN`.
The `localeCompare` comparator is locale data from the environment, so the
parser is parameterized by an arbitrary comparator `lc : Str → Str → Int`.
-/

set_option linter.unusedVariables false
set_option linter.unnecessarySimpa false
set_option maxRecDepth 100000

abbrev Str := List Char

def str (s : String) : Str := s.data

/-- `s.replace(/^\//, "")` : remove one leading separator if present. -/
def stripLead (s : Str) : Str :=
  match s with
  | [] => []
  | c :: rest => if c = '/' then rest else s

/-- `s.replace(/\/$/, "")` : remove one trailing separator if present.
Written with front recursion so that it is structurally recursive. -/
def stripTrail : Str → Str
  | [] => []
  | [c] => if c = '/' then [] else [c]
  | c :: c2 :: rest => c :: stripTrail (c2 :: rest)

def headSlash : Str → Bool
  | [] => false
  | c :: _ => c == '/'

def endsSlash : Str → Bool
  | [] => false
  | [c] => c == '/'
  | _ :: c2 :: rest => endsSlash (c2 :: rest)

/-- `true` iff the string contains two adjacent separators `//`. -/
def hasDoubled : Str → Bool
  | [] => false
  | [_] => false
  | c1 :: c2 :: rest => (c1 == '/' && c2 == '/') || hasDoubled (c2 :: rest)

/-- `this.config.basePath?.replace(/^\/|\/$/g, "") || ""` (line 32).
The global regex `^\/|\/$` removes one leading and one trailing separator:
`^` only matches at position 0 and `$` only at the end, so at most one match
of each alternative exists (and on `"/"` the single character is consumed by
the first alternative). -/
def resolvedBase : Option Str → Str
  | none => []
  | some s => stripTrail (stripLead s)

/-- `getFullPath` (lines 31-35): join the cleaned base path and the cleaned
caller key with a single separator when the base is non-empty. -/
def getFullPath (basePath : Option Str) (path : Str) : Str :=
  let base := resolvedBase basePath
  let cleanPath := stripLead path
  if base = [] then cleanPath else base ++ '/' :: cleanPath

/-- `normalizeEndpoint` (lines 42-44): `endpoint.replace(/\/$/, "")`. -/
def normalizeEndpoint (endpoint : Str) : Str := stripTrail endpoint

example : getFullPath (some (str "/base/")) (str "/k/x") = str "base/k/x" := by decide
example : getFullPath none (str "/k") = str "k" := by decide
example : getFullPath (some (str "//a")) (str "b") = str "/a/b" := by decide
example : getFullPath (some (str "/")) (str "b") = str "b" := by decide

/-! ## Request construction -/

def b64Alphabet : Str := str "ABCDEFGHIJKLMNOPQRSTUVWXYZabcdefghijklmnopqrstuvwxyz0123456789+/"

def b64Char (n : Nat) : Char := b64Alphabet.getD n 'A'

/-- Base64 of a byte sequence, with `=` padding (the encoding performed by
`btoa`). -/
def b64Encode : List Nat → Str
  | [] => []
  | [a] => [b64Char (a / 4), b64Char (a % 4 * 16), '=', '=']
  | [a, b] => [b64Char (a / 4), b64Char (a % 4 * 16 + b / 16), b64Char (b % 16 * 4), '=']
  | a :: b :: c :: rest =>
    b64Char (a / 4) :: b64Char (a % 4 * 16 + b / 16) :: b64Char (b % 16 * 4 + c / 64) ::
      b64Char (c % 64) :: b64Encode rest

/-- `btoa` encodes the code points of a Latin-1 string (all ≤ 255 in the
strings the client builds). -/
def btoa (s : Str) : Str := b64Encode (s.map Char.toNat)

structure WebdevConfig where
  endpoint : Str
  username : Str
  password : Str
  basePath : Option Str

/-- `getBasicAuth` (lines 37-40). -/
def getBasicAuth (cfg : WebdevConfig) : Str :=
  str "Basic " ++ btoa (cfg.username ++ str ":" ++ cfg.password)

structure WebRequest where
  url : Str
  method : Str
  headers : List (Str × Str)

def headerLookup (k : Str) : List (Str × Str) → Option Str
  | [] => none
  | (k2, v) :: rest => if k2 = k then some v else headerLookup k rest

/-- The single HTTP request issued by `copyObject` (lines 277-292): the
source resolves both keys and both URLs, then issues `COPY` against the
*destination* URL with the `Destination` header also set to the destination
URL; `sourceUrl` is computed but never used. -/
def copyObjectRequest (cfg : WebdevConfig) (sourceKey destKey : Str) : WebRequest :=
  let fullSourceKey := getFullPath cfg.basePath sourceKey
  let fullDestKey := getFullPath cfg.basePath destKey
  let endpoint := normalizeEndpoint cfg.endpoint
  let sourceUrl := endpoint ++ '/' :: fullSourceKey
  let destUrl := endpoint ++ '/' :: fullDestKey
  { url := destUrl
    method := str "COPY"
    headers := [(str "Authorization", getBasicAuth cfg),
                (str "Destination", destUrl),
                (str "Overwrite", str "F")] }

example : btoa (str "user:pw") = str "dXNlcjpwdw==" := by decide

/-! ## String searching (the JS regex engine restricted to the patterns used) -/

/-- Split at the first occurrence of `sub`: `some (before, after)` with the
occurrence removed, `none` when `sub` does not occur. -/
def splitFirst (sub : Str) : Str → Option (Str × Str)
  | [] => if sub = [] then some ([], []) else none
  | c :: rest =>
    if sub.isPrefixOf (c :: rest) then some ([], (c :: rest).drop sub.length)
    else
      match splitFirst sub rest with
      | some (pre, post) => some (c :: pre, post)
      | none => none

theorem splitFirst_eq {sub : Str} : ∀ {s pre post : Str},
    splitFirst sub s = some (pre, post) → s = pre ++ sub ++ post := by
  intro s
  induction s with
  | nil =>
    intro pre post h
    simp only [splitFirst] at h
    split at h
    · next hs => cases h; simp [hs]
    · cases h
  | cons c rest ih =>
    intro pre post h
    simp only [splitFirst] at h
    split at h
    · next hpre =>
      rw [List.isPrefixOf_iff_prefix] at hpre
      obtain ⟨t, ht⟩ := hpre
      cases h
      simp only [List.nil_append]
      rw [← ht, List.drop_left]
    · next =>
      cases hrec : splitFirst sub rest with
      | none => rw [hrec] at h; cases h
      | some pp =>
        rw [hrec] at h
        obtain ⟨pre2, post2⟩ := pp
        cases h
        have := ih hrec
        simp [this]

/-- `String.prototype.includes` with a plain pattern. -/
def containsSub (sub s : Str) : Bool := (splitFirst sub s).isSome

/-- The four characters that `.` does not match in a JS regex. -/
def isLineTerm (c : Char) : Bool :=
  c == '\n' || c == '\r' || c.toNat == 0x2028 || c.toNat == 0x2029

/-- First match of `openT(.*?)closeT` (a lazy single-line capture between two
literal delimiters, as in `/<D:href>(.*?)<\/D:href>/`).  The engine tries
each occurrence of `openT` left to right; at an occurrence the lazy capture
is the text up to the first following `closeT`, and the match fails there if
that text contains a line terminator. -/
def matchTag1Aux (openT closeT : Str) : Nat → Str → Option Str
  | 0, _ => none
  | fuel + 1, s =>
    match splitFirst openT s with
    | none => none
    | some (_, after) =>
      match splitFirst closeT after with
      | none => none
      | some (cap, _) =>
        if cap.any isLineTerm then matchTag1Aux openT closeT fuel after
        else some cap

def matchTag1 (openT closeT s : Str) : Option Str :=
  matchTag1Aux openT closeT (s.length + 1) s

/-- First match of `openT([\s\S]*?)closeT` (lazy capture that may span
lines, as in the resourcetype regex). -/
def matchTagM (openT closeT s : Str) : Option Str :=
  match splitFirst openT s with
  | none => none
  | some (_, after) => (splitFirst closeT after).map Prod.fst

/-- The repeated `exec` loop over `/<D:response>([\s\S]*?)<\/D:response>/g`
(lines 110-113): each iteration captures lazily up to the next closing tag
and resumes after it. -/
def responseBlocksAux : Nat → Str → List Str
  | 0, _ => []
  | fuel + 1, s =>
    match splitFirst (str "<D:response>") s with
    | none => []
    | some (_, after) =>
      match splitFirst (str "</D:response>") after with
      | none => []
      | some (cap, rest) => cap :: responseBlocksAux fuel rest

def responseBlocksF (s : Str) : List Str := responseBlocksAux (s.length + 1) s

example : matchTag1 (str "<a>") (str "</a>") (str "x<a>hi</a>y") = some (str "hi") := by decide
example : matchTag1 (str "<a>") (str "</a>") (str "<a>h\ni</a><a>ok</a>") = some (str "ok") := by decide
example : responseBlocksF (str "<D:response>one</D:response>..<D:response>two</D:response>") =
    [str "one", str "two"] := by decide

/-! ## Text decoding -/

/-- All occurrences of the plain pattern `pat` replaced by `rep`, scanning
left to right without rescanning replacement text — the semantics of
`String.prototype.replace` with a global regex built from a literal.
The fuel is the string length; every step consumes at least one character. -/
def replaceAllAux (pat rep : Str) : Nat → Str → Str
  | 0, s => s
  | _ + 1, [] => []
  | fuel + 1, c :: rest =>
    if pat.isPrefixOf (c :: rest) then rep ++ replaceAllAux pat rep fuel ((c :: rest).drop pat.length)
    else c :: replaceAllAux pat rep fuel rest

def replaceAll (pat rep s : Str) : Str := replaceAllAux pat rep s.length s

/-- `decodeXml` (lines 102-107): five sequential global replacements, with
`&amp;` replaced first. -/
def decodeXml (s : Str) : Str :=
  replaceAll (str "&apos;") (str "\x27")
    (replaceAll (str "&quot;") (str "\x22")
      (replaceAll (str "&gt;") (str ">")
        (replaceAll (str "&lt;") (str "<")
          (replaceAll (str "&amp;") (str "&") s))))

/-- Modelled from the spec: "Entity-reference decoding of an extracted text
field is a single unescape", i.e. one left-to-right pass that rewrites each
of the five entity references once, never re-examining produced text.  This
definition exists only to compare the source's `decodeXml` against the
spec's description. -/
def decodeXmlSinglePass : Str → Str
  | [] => []
  | '&' :: 'a' :: 'm' :: 'p' :: ';' :: rest => '&' :: decodeXmlSinglePass rest
  | '&' :: 'l' :: 't' :: ';' :: rest => '<' :: decodeXmlSinglePass rest
  | '&' :: 'g' :: 't' :: ';' :: rest => '>' :: decodeXmlSinglePass rest
  | '&' :: 'q' :: 'u' :: 'o' :: 't' :: ';' :: rest => '\x22' :: decodeXmlSinglePass rest
  | '&' :: 'a' :: 'p' :: 'o' :: 's' :: ';' :: rest => '\x27' :: decodeXmlSinglePass rest
  | c :: rest => c :: decodeXmlSinglePass rest

example : decodeXml (str "a&lt;b&gt;&quot;c&quot;&apos;d&apos;&amp;e") = str "a<b>\x22c\x22\x27d\x27&e" := by decide
example : decodeXml (str "&amp;lt;report&amp;gt;") = str "<report>" := by decide
example : decodeXmlSinglePass (str "&amp;lt;report&amp;gt;") = str "&lt;report&gt;" := by decide

/-! ## JS `parseInt` with radix 10 -/

def isJsSpace (c : Char) : Bool :=
  c == ' ' || c == '\t' || c == '\n' || c == '\r' || c == '\x0b' || c == '\x0c' ||
    c.toNat == 0xA0 || c.toNat == 0xFEFF

def isDigitC (c : Char) : Bool := decide (48 ≤ c.toNat ∧ c.toNat ≤ 57)

def digitsVal (ds : Str) : Nat := ds.foldl (fun acc c => 10 * acc + (c.toNat - 48)) 0

def jsParseIntCore (sign : Int) (t : Str) : Option Int :=
  let ds := t.takeWhile isDigitC
  if ds = [] then none else some (sign * (digitsVal ds : Int))

/-- `parseInt(s, 10)`: skip leading whitespace, optional sign, then the
longest leading digit run; no digits means `NaN`, modelled as `none`. -/
def jsParseInt (s : Str) : Option Int :=
  match s.dropWhile isJsSpace with
  | '-' :: r => jsParseIntCore (-1) r
  | '+' :: r => jsParseIntCore 1 r
  | t => jsParseIntCore 1 t

example : jsParseInt (str " 120kb") = some 120 := by decide
example : jsParseInt (str "-5") = some (-5) := by decide
example : jsParseInt (str "abc") = none := by decide
example : jsParseInt (str "") = none := by decide

/-! ## `decodeURIComponent` -/

def hexVal (c : Char) : Option Nat :=
  let n := c.toNat
  if 48 ≤ n ∧ n ≤ 57 then some (n - 48)
  else if 97 ≤ n ∧ n ≤ 102 then some (n - 87)
  else if 65 ≤ n ∧ n ≤ 70 then some (n - 55)
  else none

/-- Consume one `%XX` escape. -/
def takePct : Str → Option (Nat × Str)
  | '%' :: h :: l :: rest =>
    match hexVal h, hexVal l with
    | some a, some b => some (16 * a + b, rest)
    | _, _ => none
  | _ => none

def isCont (b : Nat) : Bool := 0x80 ≤ b && b ≤ 0xBF

/-- `decodeURIComponent`: each `%XX` run is decoded as strict UTF-8 bytes
(a malformed escape or invalid/overlong/surrogate sequence throws a
`URIError`, modelled as `none`); other characters pass through. -/
def pctDecodeAux : Nat → Str → Option Str
  | _, [] => some []
  | 0, _ => none
  | fuel + 1, c :: rest =>
    if c = '%' then
      match takePct (c :: rest) with
      | none => none
      | some (b, r1) =>
        if b < 0x80 then (pctDecodeAux fuel r1).map (fun t => Char.ofNat b :: t)
        else if b < 0xC2 then none
        else if b ≤ 0xDF then
          match takePct r1 with
          | none => none
          | some (b2, r2) =>
            if isCont b2 then
              (pctDecodeAux fuel r2).map (fun t => Char.ofNat ((b - 0xC0) * 0x40 + (b2 - 0x80)) :: t)
            else none
        else if b ≤ 0xEF then
          match takePct r1 with
          | none => none
          | some (b2, r2) =>
            match takePct r2 with
            | none => none
            | some (b3, r3) =>
              if isCont b2 = true ∧ isCont b3 = true ∧ (b = 0xE0 → 0xA0 ≤ b2) ∧ (b = 0xED → b2 ≤ 0x9F) then
                (pctDecodeAux fuel r3).map
                  (fun t => Char.ofNat ((b - 0xE0) * 0x1000 + (b2 - 0x80) * 0x40 + (b3 - 0x80)) :: t)
              else none
        else if b ≤ 0xF4 then
          match takePct r1 with
          | none => none
          | some (b2, r2) =>
            match takePct r2 with
            | none => none
            | some (b3, r3) =>
              match takePct r3 with
              | none => none
              | some (b4, r4) =>
                if isCont b2 = true ∧ isCont b3 = true ∧ isCont b4 = true ∧
                    (b = 0xF0 → 0x90 ≤ b2) ∧ (b = 0xF4 → b2 ≤ 0x8F) then
                  (pctDecodeAux fuel r4).map
                    (fun t => Char.ofNat ((b - 0xF0) * 0x40000 + (b2 - 0x80) * 0x1000 +
                      (b3 - 0x80) * 0x40 + (b4 - 0x80)) :: t)
                else none
        else none
    else (pctDecodeAux fuel rest).map (fun t => c :: t)

def pctDecode (s : Str) : Option Str := pctDecodeAux (s.length + 1) s

example : pctDecode (str "/a%20b") = some (str "/a b") := by decide
example : pctDecode (str "%E2%82%AC") = some (str "€") := by decide
example : pctDecode (str "plain") = some (str "plain") := by decide
example : pctDecode (str "%ZZ") = none := by decide
example : pctDecode (str "%C3") = none := by decide

/-! ## Listing parser data model -/

/-- `S3Object` (lines 8-15).  `size` is a JS number that can be `NaN`
(from `parseInt` of a non-numeric content length); `none` models `NaN`. -/
structure S3Object where
  key : Str
  name : Str
  size : Option Int
  lastModified : Str
  isDirectory : Bool
deriving DecidableEq, Repr

instance : Inhabited S3Object := ⟨⟨[], [], some 0, [], false⟩⟩

structure ListObjectsResult where
  objects : List S3Object
  prefixList : List Str
  isTruncated : Bool
  nextContinuationToken : Option Str
deriving DecidableEq, Repr

structure HeadResult where
  contentLength : Option Int
  contentType : Str
  lastModified : Str
deriving DecidableEq, Repr

def hrefTagO : Str := str "<D:href>"
def hrefTagC : Str := str "</D:href>"
def rtTagO : Str := str "<D:resourcetype>"
def rtTagC : Str := str "</D:resourcetype>"
def dnTagO : Str := str "<D:displayname>"
def dnTagC : Str := str "</D:displayname>"
def clTagO : Str := str "<D:getcontentlength>"
def clTagC : Str := str "</D:getcontentlength>"
def lmTagO : Str := str "<D:getlastmodified>"
def lmTagC : Str := str "</D:getlastmodified>"

/-- Line 120: `decodeXml(hrefMatch[1])` when the href regex matches. -/
def hrefOf (block : Str) : Option Str := (matchTag1 hrefTagO hrefTagC block).map decodeXml

/-- Lines 121-122: a directory iff the resourcetype capture exists and
includes `"collection"`. -/
def isDirOf (block : Str) : Bool :=
  match matchTagM rtTagO rtTagC block with
  | some t => containsSub (str "collection") t
  | none => false

/-- Lines 124-125: decoded display name, `""` when the regex does not match. -/
def displayNameOf (block : Str) : Str :=
  match matchTag1 dnTagO dnTagC block with
  | some d => decodeXml d
  | none => []

/-- Lines 127-128: `parseInt(capture, 10)` when present, `0` otherwise. -/
def rawSizeOf (block : Str) : Option Int :=
  match matchTag1 clTagO clTagC block with
  | some t => jsParseInt t
  | none => some 0

/-- Lines 130-131. -/
def lastModifiedOf (block : Str) : Str :=
  match matchTag1 lmTagO lmTagC block with
  | some t => decodeXml t
  | none => []

/-- Lines 136-138: the "skip the current path itself" test on the
percent-decoded, leading-separator-stripped href. -/
def selfSkip (fullPfx dec : Str) : Bool :=
  decide (stripLead dec = stripLead fullPfx) || decide (stripLead dec = stripLead fullPfx ++ str "/")

/-- The object pushed for one response entry (lines 142-162): `key` and
`name` are the display name; a directory's size is forced to `0`. -/
def mkEntry (block : Str) : S3Object :=
  ⟨displayNameOf block, displayNameOf block,
    if isDirOf block then some 0 else rawSizeOf block,
    lastModifiedOf block, isDirOf block⟩

/-- One iteration of the response loop (lines 113-163): `some none` means
the entry is skipped (no href / empty display name / self entry), `none`
means a thrown `URIError` from `decodeURIComponent` aborts the whole parse,
`some (some o)` contributes an object. -/
def processBlock (fullPfx block : Str) : Option (Option S3Object) :=
  match hrefOf block with
  | none => some none
  | some href =>
    if displayNameOf block = [] then some none
    else
      match pctDecode href with
      | none => none
      | some dec =>
        if selfSkip fullPfx dec then some none
        else some (some (mkEntry block))

/-- The whole loop: entries in block order, aborting at the first thrown
`URIError`. -/
def collectEntries (fullPfx : Str) : List Str → Option (List S3Object)
  | [] => some []
  | b :: rest =>
    match processBlock fullPfx b with
    | none => none
    | some e =>
      match collectEntries fullPfx rest with
      | none => none
      | some es =>
        some (match e with
              | some o => o :: es
              | none => es)

/-! ## The sort (lines 166-171) -/

/-- The comparator passed to `objects.sort`: directories first, then
`localeCompare` on names.  `lc` is the environment's locale comparator. -/
def jsCompare (lc : Str → Str → Int) (a b : S3Object) : Int :=
  if a.isDirectory ≠ b.isDirectory then (if a.isDirectory then -1 else 1)
  else lc a.name b.name

def leB (lc : Str → Str → Int) (a b : S3Object) : Bool := decide (jsCompare lc a b ≤ 0)

def orderedInsertB (le : α → α → Bool) (x : α) : List α → List α
  | [] => [x]
  | y :: ys => if le x y then x :: y :: ys else y :: orderedInsertB le x ys

/-- `Array.prototype.sort` with a consistent comparator, modelled as a
stable insertion sort on `le a b := compare(a,b) ≤ 0`. -/
def insertSortB (le : α → α → Bool) : List α → List α
  | [] => []
  | x :: xs => orderedInsertB le x (insertSortB le xs)

/-- `parsePropfindResponse` (lines 93-176).  `displayPfx` is the third
source parameter, received but never read. -/
def parsePropfindResponse (lc : Str → Str → Int) (xml fullPfx displayPfx : Str) :
    Option ListObjectsResult :=
  match collectEntries fullPfx (responseBlocksF xml) with
  | none => none
  | some entries =>
    some ⟨insertSortB (leB lc) entries,
          entries.filterMap (fun o => if o.isDirectory then some o.key else none),
          false, none⟩

/-! ## Status interpretation of the simple operations -/

structure WebResponse where
  status : Nat
  headers : Str → Option Str
  bodyText : Str

/-- `Response.ok`: status in the inclusive range 200-299. -/
def respOk (r : WebResponse) : Bool := 200 ≤ r.status && r.status ≤ 299

def natStr (n : Nat) : Str := (toString n).data

/-- The `catch` block shared by every operation: any inner error (protocol
status or transport) is re-wrapped with the operation name. -/
def wrapOp (op : Str) : Except Str α → Except Str α
  | .error e => .error (str "WebDAV " ++ op ++ str " failed: " ++ e)
  | .ok a => .ok a

/-- `x || d` on a possibly-absent JS string: `null`/`undefined` and `""`
are both falsy. -/
def jsOrOpt (v : Option Str) (d : Str) : Str :=
  match v with
  | none => d
  | some s => if s = [] then d else s

/-- `deleteObject` status handling (lines 232-252); the input is the
transport outcome (`.error` = network failure). -/
def deleteObjectResult (r : Except Str WebResponse) : Except Str Unit :=
  wrapOp (str "deleteObject") <|
    match r with
    | .error e => .error e
    | .ok resp =>
      if respOk resp = false ∧ resp.status ≠ 204 then
        .error (str "WebDAV DeleteObject failed: " ++ natStr resp.status ++ str " " ++ resp.bodyText)
      else .ok ()

/-- `createFolder` status handling (lines 254-275). -/
def createFolderResult (r : Except Str WebResponse) : Except Str Unit :=
  wrapOp (str "createFolder") <|
    match r with
    | .error e => .error e
    | .ok resp =>
      if respOk resp = false ∧ resp.status ≠ 201 then
        .error (str "WebDAV MKCOL failed: " ++ natStr resp.status ++ str " " ++ resp.bodyText)
      else .ok ()

/-- `copyObject` status handling (lines 294-300). -/
def copyObjectResult (r : Except Str WebResponse) : Except Str Unit :=
  wrapOp (str "copyObject") <|
    match r with
    | .error e => .error e
    | .ok resp =>
      if respOk resp = false ∧ resp.status ≠ 201 ∧ resp.status ≠ 204 then
        .error (str "WebDAV COPY failed: " ++ natStr resp.status ++ str " " ++ resp.bodyText)
      else .ok ()

/-- `headObject` status handling (lines 303-334): 404 is a successful
"absent" result; other non-ok statuses throw; ok statuses return the
metadata from the response headers. -/
def headObjectResult (r : Except Str WebResponse) : Except Str (Option HeadResult) :=
  wrapOp (str "headObject") <|
    match r with
    | .error e => .error e
    | .ok resp =>
      if resp.status = 404 then .ok none
      else if respOk resp = false then
        .error (str "WebDAV HeadObject failed: " ++ natStr resp.status)
      else
        .ok (some ⟨jsParseInt (jsOrOpt (resp.headers (str "content-length")) (str "0")),
                   jsOrOpt (resp.headers (str "content-type")) (str "application/octet-stream"),
                   jsOrOpt (resp.headers (str "last-modified")) (str "")⟩)

/-! ## A concrete locale comparator (code-point order) for instantiations -/

def lcCp : Str → Str → Int
  | [], [] => 0
  | [], _ :: _ => -1
  | _ :: _, [] => 1
  | a :: as, b :: bs =>
    if a.toNat < b.toNat then -1 else if b.toNat < a.toNat then 1 else lcCp as bs

theorem lcCp_total : ∀ a b : Str, lcCp a b ≤ 0 ∨ lcCp b a ≤ 0 := by
  intro a
  induction a with
  | nil => intro b; cases b <;> simp [lcCp]
  | cons x xs ih =>
    intro b
    cases b with
    | nil => right; simp [lcCp]
    | cons y ys =>
      by_cases hxy : x.toNat < y.toNat
      · left; simp [lcCp, hxy]
      · by_cases hyx : y.toNat < x.toNat
        · right; simp [lcCp, hyx]
        · have h1 : ¬ x.toNat < y.toNat := hxy
          rcases ih ys with h | h
          · left; simp [lcCp, hxy, hyx, h]
          · right; simp [lcCp, hxy, hyx, h]

theorem lcCp_trans : ∀ a b c : Str, lcCp a b ≤ 0 → lcCp b c ≤ 0 → lcCp a c ≤ 0 := by
  intro a
  induction a with
  | nil => intro b c _ _; cases c <;> simp [lcCp]
  | cons x xs ih =>
    intro b c hab hbc
    cases b with
    | nil => simp [lcCp] at hab
    | cons y ys =>
      cases c with
      | nil => simp [lcCp] at hbc
      | cons z zs =>
        simp only [lcCp] at hab hbc ⊢
        by_cases hxy : x.toNat < y.toNat
        · by_cases hyz : y.toNat < z.toNat
          · have hxz : x.toNat < z.toNat := Nat.lt_trans hxy hyz
            simp [hxz]
          · by_cases hzy : z.toNat < y.toNat
            · simp [hyz, hzy] at hbc
            · have hyz2 : y.toNat = z.toNat := Nat.le_antisymm (Nat.le_of_not_lt hzy) (Nat.le_of_not_lt hyz)
              have hxz : x.toNat < z.toNat := hyz2 ▸ hxy
              simp [hxz]
        · by_cases hyx : y.toNat < x.toNat
          · simp [hxy, hyx] at hab
          · have hxy2 : x.toNat = y.toNat := Nat.le_antisymm (Nat.le_of_not_lt hyx) (Nat.le_of_not_lt hxy)
            by_cases hyz : y.toNat < z.toNat
            · have hxz : x.toNat < z.toNat := hxy2 ▸ hyz
              simp [hxz]
            · by_cases hzy : z.toNat < y.toNat
              · simp [hyz, hzy] at hbc
              · have hyz2 : y.toNat = z.toNat := Nat.le_antisymm (Nat.le_of_not_lt hzy) (Nat.le_of_not_lt hyz)
                have hxz : ¬ x.toNat < z.toNat := by omega
                have hzx : ¬ z.toNat < x.toNat := by omega
                simp only [hxy, hyx, if_neg, hxz, hzx] at hab hbc ⊢
                exact ih ys zs (by simpa [hxy, hyx] using hab) (by simpa [hyz, hzy] using hbc)

/-! ## Path resolver lemmas -/

theorem hasDoubled_cons (c : Char) (s : Str) :
    hasDoubled (c :: s) = ((c == '/') && headSlash s || hasDoubled s) := by
  cases s <;> simp [hasDoubled, headSlash]

theorem headSlash_cons (c : Char) (s : Str) : headSlash (c :: s) = (c == '/') := rfl

theorem headSlash_stripLead {s : Str} (h : hasDoubled s = false) :
    headSlash (stripLead s) = false := by
  cases s with
  | nil => simp [stripLead, headSlash]
  | cons c rest =>
    rw [hasDoubled_cons] at h
    simp only [Bool.or_eq_false_iff, Bool.and_eq_false_iff] at h
    by_cases hc : c = '/'
    · simp only [stripLead, if_pos hc]
      rcases h.1 with h1 | h1
      · simp [hc] at h1
      · exact h1
    · simp [stripLead, hc, headSlash]

theorem hasDoubled_stripLead {s : Str} (h : hasDoubled s = false) :
    hasDoubled (stripLead s) = false := by
  cases s with
  | nil => exact h
  | cons c rest =>
    rw [hasDoubled_cons] at h
    simp only [Bool.or_eq_false_iff] at h
    by_cases hc : c = '/'
    · simp only [stripLead, if_pos hc]; exact h.2
    · simpa [stripLead, hc, hasDoubled_cons, h.2] using h.1

theorem stripLead_of_headSlash_false {s : Str} (h : headSlash s = false) : stripLead s = s := by
  cases s with
  | nil => rfl
  | cons c rest =>
    simp only [headSlash, beq_eq_false_iff_ne, ne_eq] at h
    simp [stripLead, h]

theorem headSlash_stripTrail {s : Str} (h : headSlash (stripTrail s) = true) :
    headSlash s = true := by
  match s with
  | [] => simpa [stripTrail] using h
  | [c] =>
    simp only [stripTrail] at h
    split at h
    · simp [headSlash] at h
    · simpa [headSlash] using h
  | c :: c2 :: rest => simpa [stripTrail, headSlash] using h

theorem stripTrail_eq_nil {s : Str} (h : stripTrail s = []) : s = [] ∨ s = ['/'] := by
  match s with
  | [] => left; rfl
  | [c] =>
    simp only [stripTrail] at h
    split at h
    · next hc => right; rw [hc]
    · cases h
  | c :: c2 :: rest => simp [stripTrail] at h

theorem hasDoubled_stripTrail {s : Str} (h : hasDoubled s = false) :
    hasDoubled (stripTrail s) = false := by
  match s with
  | [] => simpa [stripTrail] using h
  | [c] =>
    simp only [stripTrail]
    split <;> simp [hasDoubled]
  | c :: c2 :: rest =>
    rw [hasDoubled_cons] at h
    simp only [Bool.or_eq_false_iff] at h
    have ih := hasDoubled_stripTrail (s := c2 :: rest) h.2
    simp only [stripTrail, hasDoubled_cons, ih, Bool.or_eq_false_iff, and_true, Bool.or_false]
    simp only [Bool.and_eq_false_iff]
    by_cases hc : c = '/'
    · rcases (Bool.and_eq_false_iff ..).mp h.1 with h1 | h1
      · simp [hc] at h1
      · right
        by_cases hh : headSlash (stripTrail (c2 :: rest)) = true
        · have := headSlash_stripTrail hh
          rw [this] at h1; cases h1
        · simpa using hh
    · left; simpa using hc

theorem endsSlash_stripTrail {s : Str} (h : hasDoubled s = false) :
    endsSlash (stripTrail s) = false := by
  match s with
  | [] => simp [stripTrail, endsSlash]
  | [c] =>
    simp only [stripTrail]
    split
    · rfl
    · next hc => simp [endsSlash, hc]
  | c :: c2 :: rest =>
    rw [hasDoubled_cons] at h
    simp only [Bool.or_eq_false_iff] at h
    have ih := endsSlash_stripTrail (s := c2 :: rest) h.2
    simp only [stripTrail]
    cases hst : stripTrail (c2 :: rest) with
    | nil =>
      rcases stripTrail_eq_nil hst with h2 | h2
      · cases h2
      · have hc2 : c2 = '/' := by
          have := congrArg (fun l => l.headI) h2
          simpa using this
        rcases (Bool.and_eq_false_iff ..).mp h.1 with h1 | h1
        · simp [endsSlash]
          intro hc; rw [hc] at h1; simp at h1
        · rw [hc2] at h1; simp [headSlash_cons] at h1
    | cons d ds => rw [← hst]; simpa [endsSlash, hst] using ih

theorem headSlash_append {b x : Str} (hb : b ≠ []) : headSlash (b ++ x) = headSlash b := by
  cases b with
  | nil => cases hb rfl
  | cons c rest => simp [headSlash]

theorem hasDoubled_append_slash : ∀ {b : Str}, hasDoubled b = false → endsSlash b = false →
    ∀ {c : Str}, hasDoubled c = false → headSlash c = false →
    hasDoubled (b ++ '/' :: c) = false := by
  intro b
  match b with
  | [] =>
    intro _ _ c hc hhc
    simpa [hasDoubled_cons, hhc] using hc
  | [b0] =>
    intro _ he c hc hhc
    simp only [endsSlash, beq_eq_false_iff_ne, ne_eq] at he
    simp [hasDoubled_cons, headSlash_cons, he, hhc, hc]
  | b0 :: b1 :: rest =>
    intro hd he c hc hhc
    rw [hasDoubled_cons] at hd
    simp only [Bool.or_eq_false_iff] at hd
    have he2 : endsSlash (b1 :: rest) = false := by simpa [endsSlash] using he
    have ih := hasDoubled_append_slash (b := b1 :: rest) hd.2 he2 hc hhc
    simp only [List.cons_append, hasDoubled_cons] at ih ⊢
    simp only [ih, Bool.or_false]
    have hhead : headSlash ((b1 :: rest) ++ '/' :: c) = headSlash (b1 :: rest) :=
      headSlash_append (by simp)
    simp only [List.cons_append] at hhead
    rw [hhead]
    simpa using hd.1

/-! ## Sorting lemmas -/

theorem mem_orderedInsertB {le : α → α → Bool} {x z : α} : ∀ {l : List α},
    z ∈ orderedInsertB le x l → z = x ∨ z ∈ l := by
  intro l
  induction l with
  | nil => intro h; simp [orderedInsertB] at h; exact Or.inl h
  | cons y ys ih =>
    intro h
    by_cases hxy : le x y = true
    · simp only [orderedInsertB, if_pos hxy] at h
      rcases List.mem_cons.mp h with h1 | h1
      · exact Or.inl h1
      · exact Or.inr h1
    · simp only [orderedInsertB, if_neg hxy] at h
      rcases List.mem_cons.mp h with h1 | h1
      · exact Or.inr (by simp [h1])
      · rcases ih h1 with h2 | h2
        · exact Or.inl h2
        · exact Or.inr (by simp [h2])

theorem perm_orderedInsertB (le : α → α → Bool) (x : α) : ∀ (l : List α),
    List.Perm (orderedInsertB le x l) (x :: l) := by
  intro l
  induction l with
  | nil => simp [orderedInsertB]
  | cons y ys ih =>
    simp only [orderedInsertB]
    split
    · exact List.Perm.refl _
    · exact (List.Perm.cons y ih).trans (List.Perm.swap x y ys)

theorem perm_insertSortB (le : α → α → Bool) : ∀ (l : List α),
    List.Perm (insertSortB le l) l := by
  intro l
  induction l with
  | nil => simp [insertSortB]
  | cons x xs ih =>
    simp only [insertSortB]
    exact (perm_orderedInsertB le x (insertSortB le xs)).trans (List.Perm.cons x ih)

theorem pairwise_orderedInsertB {le : α → α → Bool}
    (htot : ∀ a b, le a b = true ∨ le b a = true)
    (htr : ∀ a b c, le a b = true → le b c = true → le a c = true) (x : α) :
    ∀ {l : List α}, List.Pairwise (fun a b => le a b = true) l →
      List.Pairwise (fun a b => le a b = true) (orderedInsertB le x l) := by
  intro l
  induction l with
  | nil => intro _; simp [orderedInsertB]
  | cons y ys ih =>
    intro h
    rcases List.pairwise_cons.mp h with ⟨hy, hys⟩
    simp only [orderedInsertB]
    split
    · next hxy =>
      refine List.pairwise_cons.mpr ⟨?_, h⟩
      intro z hz
      rcases hz with _ | hz
      · exact hxy
      · exact htr x y z hxy (hy z (by assumption))
    · next hxy =>
      have hyx : le y x = true := by
        rcases htot x y with h2 | h2
        · exact absurd h2 hxy
        · exact h2
      refine List.pairwise_cons.mpr ⟨?_, ih hys⟩
      intro z hz
      rcases mem_orderedInsertB hz with rfl | hz2
      · exact hyx
      · exact hy z hz2

theorem pairwise_insertSortB {le : α → α → Bool}
    (htot : ∀ a b, le a b = true ∨ le b a = true)
    (htr : ∀ a b c, le a b = true → le b c = true → le a c = true) :
    ∀ (l : List α), List.Pairwise (fun a b => le a b = true) (insertSortB le l) := by
  intro l
  induction l with
  | nil => simp [insertSortB]
  | cons x xs ih => exact pairwise_orderedInsertB htot htr x ih

theorem leB_total {lc : Str → Str → Int} (hlc : ∀ a b, lc a b ≤ 0 ∨ lc b a ≤ 0) :
    ∀ a b, leB lc a b = true ∨ leB lc b a = true := by
  intro a b
  simp only [leB, decide_eq_true_eq, jsCompare]
  cases hda : a.isDirectory <;> cases hdb : b.isDirectory
  · simpa using hlc a.name b.name
  · right; simp
  · left; simp
  · simpa using hlc a.name b.name

theorem leB_trans {lc : Str → Str → Int} (hlc : ∀ a b c, lc a b ≤ 0 → lc b c ≤ 0 → lc a c ≤ 0) :
    ∀ a b c, leB lc a b = true → leB lc b c = true → leB lc a c = true := by
  intro a b c hab hbc
  simp only [leB, decide_eq_true_eq, jsCompare] at hab hbc ⊢
  cases hda : a.isDirectory <;> cases hdb : b.isDirectory <;> cases hdc : c.isDirectory <;>
    simp_all <;> exact hlc _ _ _ hab hbc

/-! ## Parser inversion helpers -/

theorem parse_inv {lc : Str → Str → Int} {xml fullPfx displayPfx : Str} {r : ListObjectsResult}
    (h : parsePropfindResponse lc xml fullPfx displayPfx = some r) :
    ∃ es, collectEntries fullPfx (responseBlocksF xml) = some es ∧
      r.objects = insertSortB (leB lc) es ∧
      r.prefixList = es.filterMap (fun o => if o.isDirectory then some o.key else none) := by
  unfold parsePropfindResponse at h
  cases hc : collectEntries fullPfx (responseBlocksF xml) with
  | none => rw [hc] at h; cases h
  | some es =>
    rw [hc] at h
    cases h
    exact ⟨es, rfl, rfl, rfl⟩

theorem collect_mem {fullPfx : Str} : ∀ {blocks : List Str} {es : List S3Object},
    collectEntries fullPfx blocks = some es → ∀ o ∈ es,
      ∃ b ∈ blocks, processBlock fullPfx b = some (some o) := by
  intro blocks
  induction blocks with
  | nil =>
    intro es h o ho
    simp only [collectEntries] at h
    cases h
    cases ho
  | cons b rest ih =>
    intro es h o ho
    simp only [collectEntries] at h
    cases hb : processBlock fullPfx b with
    | none => rw [hb] at h; cases h
    | some e =>
      rw [hb] at h
      cases hrest : collectEntries fullPfx rest with
      | none => rw [hrest] at h; cases h
      | some es2 =>
        rw [hrest] at h
        cases h
        cases e with
        | none =>
          rcases ih hrest o ho with ⟨b2, hb2, hpb2⟩
          exact ⟨b2, by simp [hb2], hpb2⟩
        | some o2 =>
          rcases List.mem_cons.mp ho with rfl | ho2
          · exact ⟨b, by simp, hb⟩
          · rcases ih hrest o ho2 with ⟨b2, hb2, hpb2⟩
            exact ⟨b2, by simp [hb2], hpb2⟩

/-- Inversion of a successful, contributing loop iteration: the entry came
from a block with a matching href, a non-empty display name, a successfully
percent-decoded href that is *not* the current path, and the object is the
one pushed at lines 145-162. -/
theorem processBlock_some_inv {fullPfx b : Str} {o : S3Object}
    (h : processBlock fullPfx b = some (some o)) :
    ∃ href dec, hrefOf b = some href ∧ displayNameOf b ≠ [] ∧
      pctDecode href = some dec ∧
      stripLead dec ≠ stripLead fullPfx ∧ stripLead dec ≠ stripLead fullPfx ++ str "/" ∧
      o = mkEntry b := by
  unfold processBlock at h
  cases hh : hrefOf b with
  | none => rw [hh] at h; cases h
  | some href =>
    rw [hh] at h
    dsimp only at h
    by_cases hd : displayNameOf b = []
    · rw [if_pos hd] at h; cases h
    · rw [if_neg hd] at h
      cases hp : pctDecode href with
      | none => rw [hp] at h; cases h
      | some dec =>
        rw [hp] at h
        dsimp only at h
        by_cases hs : selfSkip fullPfx dec = true
        · rw [if_pos hs] at h; cases h
        · rw [if_neg hs] at h
          cases h
          simp only [selfSkip, Bool.or_eq_true, decide_eq_true_eq, not_or] at hs
          push_neg at hs
          exact ⟨href, dec, rfl, hd, hp, hs.1, hs.2, rfl⟩

/-- Every object in the parsed result comes from some response block that
contributed it. -/
theorem mem_objects_inv {lc : Str → Str → Int} {xml fullPfx displayPfx : Str}
    {r : ListObjectsResult} (h : parsePropfindResponse lc xml fullPfx displayPfx = some r) :
    ∀ o ∈ r.objects, ∃ b ∈ responseBlocksF xml, processBlock fullPfx b = some (some o) := by
  intro o ho
  rcases parse_inv h with ⟨es, hes, hobj, _⟩
  rw [hobj] at ho
  have ho2 : o ∈ es := (perm_insertSortB (leB lc) es).mem_iff.mp ho
  exact collect_mem hes o ho2

/-- Every prefix in the parsed result is the key of a directory object
contributed by some response block. -/
theorem mem_prefixList_inv {lc : Str → Str → Int} {xml fullPfx displayPfx : Str}
    {r : ListObjectsResult} (h : parsePropfindResponse lc xml fullPfx displayPfx = some r) :
    ∀ p ∈ r.prefixList, ∃ b ∈ responseBlocksF xml, ∃ o,
      processBlock fullPfx b = some (some o) ∧ o.isDirectory = true ∧ o.key = p := by
  intro p hp
  rcases parse_inv h with ⟨es, hes, _, hpfx⟩
  rw [hpfx] at hp
  rcases List.mem_filterMap.mp hp with ⟨o, ho, hfo⟩
  have hdir : o.isDirectory = true := by
    by_contra hd
    simp only [Bool.not_eq_true] at hd
    rw [hd] at hfo
    simp at hfo
  rw [if_pos hdir] at hfo
  cases hfo
  rcases collect_mem hes o ho with ⟨b, hb, hpb⟩
  exact ⟨b, hb, o, hpb, hdir, rfl⟩

/-! ## Claim C1 -/

/-- C1: `copyObject` issues its single COPY request to the URL resolved from
`destKey` and sets the `Destination` header to that same destination URL;
the path resolved from `sourceKey` is computed but never used, so the
request is entirely independent of the source key and never references the
source resource. -/
theorem c1_copy_targets_destination (cfg : WebdevConfig) (sourceKey destKey : Str) :
    (copyObjectRequest cfg sourceKey destKey).url =
        normalizeEndpoint cfg.endpoint ++ '/' :: getFullPath cfg.basePath destKey ∧
    headerLookup (str "Destination") (copyObjectRequest cfg sourceKey destKey).headers =
        some (copyObjectRequest cfg sourceKey destKey).url ∧
    ∀ sourceKey2 : Str, copyObjectRequest cfg sourceKey destKey =
        copyObjectRequest cfg sourceKey2 destKey := by
  refine ⟨rfl, ?_, fun _ => rfl⟩
  have h1 : str "Authorization" ≠ str "Destination" := by decide
  simp [copyObjectRequest, headerLookup, h1]

/-! ## Claim C2 -/

/-- C2 counterexample: the claim "for every basePath and key the resolved
path has no doubled separators and no leading separator" is false as
stated: with `basePath = "//a"` and `key = "b"` the global regex
`^\/|\/$` removes only one leading separator, and the resolved path is
`"/a/b"`, which starts with a separator. -/
theorem c2_counterexample :
    ¬ (hasDoubled (getFullPath (some (str "//a")) (str "b")) = false ∧
       headSlash (getFullPath (some (str "//a")) (str "b")) = false) := by
  decide

/-- C2 (amended): for every basePath and key that themselves contain no
doubled separator `//`, the resolved wire path `getFullPath basePath key`
contains no doubled separator and no leading separator (the base and the
key are joined with exactly one separator). -/
theorem c2_resolve_clean (basePath : Option Str) (key : Str)
    (hbase : ∀ s, basePath = some s → hasDoubled s = false)
    (hkey : hasDoubled key = false) :
    hasDoubled (getFullPath basePath key) = false ∧
    headSlash (getFullPath basePath key) = false := by
  have hc1 : hasDoubled (stripLead key) = false := hasDoubled_stripLead hkey
  have hc2 : headSlash (stripLead key) = false := headSlash_stripLead hkey
  have hb : hasDoubled (resolvedBase basePath) = false ∧
      headSlash (resolvedBase basePath) = false ∧
      endsSlash (resolvedBase basePath) = false := by
    cases basePath with
    | none => refine ⟨rfl, rfl, rfl⟩
    | some s =>
      have hs := hbase s rfl
      have h1 : hasDoubled (stripLead s) = false := hasDoubled_stripLead hs
      have h2 : headSlash (stripLead s) = false := headSlash_stripLead hs
      refine ⟨hasDoubled_stripTrail h1, ?_, endsSlash_stripTrail h1⟩
      by_cases hh : headSlash (stripTrail (stripLead s)) = true
      · rw [headSlash_stripTrail hh] at h2; cases h2
      · simpa using hh
  unfold getFullPath
  by_cases hbe : resolvedBase basePath = []
  · simp only [hbe, if_pos]
    exact ⟨hc1, hc2⟩
  · simp only [if_neg hbe]
    refine ⟨hasDoubled_append_slash hb.1 hb.2.2 hc1 hc2, ?_⟩
    rw [headSlash_append hbe]
    exact hb.2.1

/-- C2 witness: the amended invariant at a concrete base path and key. -/
theorem c2_resolve_clean_witness :
    hasDoubled (getFullPath (some (str "/base/")) (str "/docs/readme.txt")) = false ∧
    headSlash (getFullPath (some (str "/base/")) (str "/docs/readme.txt")) = false :=
  c2_resolve_clean (some (str "/base/")) (str "/docs/readme.txt")
    (fun s hs => by cases hs; decide) (by decide)

/-! ## Claim C3 -/

/-- C3 counterexample: path resolution is not idempotent: with
`basePath = "a"` and `key = "x"`, resolving the already-resolved path
prepends the base path a second time: `resolve("a", resolve("a","x")) =
"a/a/x" ≠ "a/x"`. -/
theorem c3_counterexample :
    getFullPath (some (str "a")) (getFullPath (some (str "a")) (str "x")) ≠
      getFullPath (some (str "a")) (str "x") := by
  decide

/-- C3 (amended): resolution is total (it is a function, never erring), but
it is idempotent only when the normalized basePath is empty and the key does
not begin with a doubled separator; then re-resolving the resolved path
yields the same path.  (With a non-empty basePath the counterexample shows
the base is prepended again.) -/
theorem c3_resolve_idempotent (basePath : Option Str) (key : Str)
    (hbase : resolvedBase basePath = [])
    (hkey : headSlash (stripLead key) = false) :
    getFullPath basePath (getFullPath basePath key) = getFullPath basePath key := by
  unfold getFullPath
  simp only [hbase, if_pos]
  exact stripLead_of_headSlash_false hkey

/-- C3 witness: idempotence at an empty base path and the key `"/x"`. -/
theorem c3_resolve_idempotent_witness :
    getFullPath none (getFullPath none (str "/x")) = getFullPath none (str "/x") :=
  c3_resolve_idempotent none (str "/x") (by decide) (by decide)

/-! ## Claim C4 -/

/-- C4 counterexample: entity decoding is *not* a single unescape.  On the
spec's own example `&amp;lt;report&amp;gt;` the source's `decodeXml`
replaces `&amp;` first, and the `&lt;`/`&gt;` produced by that replacement
are decoded again by the later passes, yielding `<report>`, while a single
unescape (the spec-modelled `decodeXmlSinglePass`) yields the literal text
`&lt;report&gt;`. -/
theorem c4_counterexample :
    decodeXml (str "&amp;lt;report&amp;gt;") ≠
      decodeXmlSinglePass (str "&amp;lt;report&amp;gt;") := by
  decide

/-- C4 (amended): `decodeXml` decodes `&amp;lt;report&amp;gt;` to
`<report>`: the `&amp;` → `&` replacement runs first as one left-to-right
pass whose output is not rescanned for `&amp;` itself (so `&amp;amp;`
decodes to `&amp;`, not `&`), but the text it produces *is* subject to the
subsequent `&lt;`/`&gt;`/`&quot;`/`&apos;` replacements, i.e. those
entities are double-unescaped. -/
theorem c4_decode_example :
    decodeXml (str "&amp;lt;report&amp;gt;") = str "<report>" ∧
    decodeXml (str "&amp;amp;") = str "&amp;" ∧
    decodeXml (str "&amp;lt;") = str "<" := by
  refine ⟨by decide, by decide, by decide⟩

/-! ## Claim C5 -/

/-- C5: for every multi-status body, the listing returned by
`parsePropfindResponse` never includes the queried directory's
self-descriptor entry: every object and every prefix in the result comes
from a response block whose decoded, leading-separator-stripped href is
different from the resolved request prefix both with and without a trailing
separator (entries whose href equals the prefix are skipped at lines
136-140 and appear in neither sequence). -/
theorem c5_self_entry_excluded (lc : Str → Str → Int) (xml fullPfx displayPfx : Str)
    (r : ListObjectsResult)
    (h : parsePropfindResponse lc xml fullPfx displayPfx = some r) :
    (∀ o ∈ r.objects, ∃ b ∈ responseBlocksF xml, ∃ href dec,
        processBlock fullPfx b = some (some o) ∧
        hrefOf b = some href ∧ pctDecode href = some dec ∧
        stripLead dec ≠ stripLead fullPfx ∧ stripLead dec ≠ stripLead fullPfx ++ str "/") ∧
    (∀ p ∈ r.prefixList, ∃ b ∈ responseBlocksF xml, ∃ o href dec,
        processBlock fullPfx b = some (some o) ∧ o.isDirectory = true ∧ o.key = p ∧
        hrefOf b = some href ∧ pctDecode href = some dec ∧
        stripLead dec ≠ stripLead fullPfx ∧ stripLead dec ≠ stripLead fullPfx ++ str "/") := by
  constructor
  · intro o ho
    rcases mem_objects_inv h o ho with ⟨b, hb, hpb⟩
    rcases processBlock_some_inv hpb with ⟨href, dec, hh, _, hp, hne1, hne2, _⟩
    exact ⟨b, hb, href, dec, hpb, hh, hp, hne1, hne2⟩
  · intro p hp
    rcases mem_prefixList_inv h p hp with ⟨b, hb, o, hpb, hdir, hkey⟩
    rcases processBlock_some_inv hpb with ⟨href, dec, hh, _, hpd, hne1, hne2, _⟩
    exact ⟨b, hb, o, href, dec, hpb, hdir, hkey, hh, hpd, hne1, hne2⟩

def xmlC5 : Str := str "<D:response><D:href>/docs/</D:href><D:displayname>docs</D:displayname></D:response><D:response><D:href>/docs/readme.txt</D:href><D:displayname>readme.txt</D:displayname><D:getcontentlength>120</D:getcontentlength></D:response>"

def resC5 : ListObjectsResult :=
  ⟨[⟨str "readme.txt", str "readme.txt", some 120, [], false⟩], [], false, none⟩

/-- C5 witness: a concrete multi-status body whose entries are the queried
directory `docs/` itself and one child; the parse succeeds, the self entry
is dropped, and the theorem applies. -/
theorem c5_self_entry_excluded_witness :
    parsePropfindResponse lcCp xmlC5 (str "docs/") (str "docs/") = some resC5 ∧
    (∀ o ∈ resC5.objects, ∃ b ∈ responseBlocksF xmlC5, ∃ href dec,
        processBlock (str "docs/") b = some (some o) ∧
        hrefOf b = some href ∧ pctDecode href = some dec ∧
        stripLead dec ≠ stripLead (str "docs/") ∧
        stripLead dec ≠ stripLead (str "docs/") ++ str "/") := by
  have hp : parsePropfindResponse lcCp xmlC5 (str "docs/") (str "docs/") = some resC5 := by decide
  exact ⟨hp, (c5_self_entry_excluded lcCp xmlC5 (str "docs/") (str "docs/") resC5 hp).1⟩

/-! ## Claim C6 -/

/-- The ordering property claimed for the final object sequence: at any two
positions `i < j`, a directory never appears after a file (if position `j`
holds a directory then so does position `i`), and within a group of equal
`isDirectory` flags the names are in (weakly) ascending comparator order. -/
def sortedDirsFirst (lc : Str → Str → Int) (objs : List S3Object) : Prop :=
  ∀ j, j < objs.length → ∀ i, i < j →
    ((objs.getD j default).isDirectory = true → (objs.getD i default).isDirectory = true) ∧
    ((objs.getD i default).isDirectory = (objs.getD j default).isDirectory →
      lc (objs.getD i default).name (objs.getD j default).name ≤ 0)

/-- C6: for every multi-status body (entries arriving in arbitrary order)
and every locale comparator `lc` that is total and transitive (as a real
`localeCompare` is), the object sequence of a successful parse is sorted
with every directory entry before every file entry and, within each of the
two groups, names in `lc` order (lines 166-171). -/
theorem c6_sorted (lc : Str → Str → Int)
    (hlc1 : ∀ a b, lc a b ≤ 0 ∨ lc b a ≤ 0)
    (hlc2 : ∀ a b c, lc a b ≤ 0 → lc b c ≤ 0 → lc a c ≤ 0)
    (xml fullPfx displayPfx : Str) (r : ListObjectsResult)
    (h : parsePropfindResponse lc xml fullPfx displayPfx = some r) :
    sortedDirsFirst lc r.objects := by
  rcases parse_inv h with ⟨es, _, hobj, _⟩
  have hpw : List.Pairwise (fun a b => leB lc a b = true) r.objects := by
    rw [hobj]; exact pairwise_insertSortB (leB_total hlc1) (leB_trans hlc2) es
  rw [List.pairwise_iff_getElem] at hpw
  intro j hj i hij
  have hi : i < r.objects.length := Nat.lt_trans hij hj
  have hgd : ∀ (k : Nat) (hk : k < r.objects.length),
      r.objects.getD k default = r.objects[k] := by
    intro k hk
    simp [List.getD_eq_getElem?_getD, List.getElem?_eq_getElem hk]
  rw [hgd j hj, hgd i hi]
  have hle := hpw i j hi hj hij
  simp only [leB, decide_eq_true_eq, jsCompare] at hle
  constructor
  · intro hbj
    by_cases heq : (r.objects[i]).isDirectory = (r.objects[j]).isDirectory
    · rw [heq]; exact hbj
    · rw [if_pos (by simpa using heq)] at hle
      by_cases hai : (r.objects[i]).isDirectory = true
      · exact hai
      · rw [if_neg hai] at hle
        simp at hle
  · intro heq
    rw [if_neg (by simpa using heq)] at hle
    exact hle

def xmlC6 : Str := str "<D:response><D:href>/p/b</D:href><D:displayname>b</D:displayname><D:getcontentlength>3</D:getcontentlength></D:response><D:response><D:href>/p/A/</D:href><D:resourcetype><D:collection/></D:resourcetype><D:displayname>A</D:displayname></D:response><D:response><D:href>/p/a</D:href><D:displayname>a</D:displayname></D:response>"

def resC6 : ListObjectsResult :=
  ⟨[⟨str "A", str "A", some 0, [], true⟩,
    ⟨str "a", str "a", some 0, [], false⟩,
    ⟨str "b", str "b", some 3, [], false⟩],
   [str "A"], false, none⟩

/-- C6 witness: entries `b` (file), `A` (directory), `a` (file) arriving in
that order sort to `[A, a, b]` under the code-point comparator, and the
sortedness property follows from the theorem. -/
theorem c6_sorted_witness :
    parsePropfindResponse lcCp xmlC6 (str "p/") (str "p/") = some resC6 ∧
    sortedDirsFirst lcCp resC6.objects := by
  have hp : parsePropfindResponse lcCp xmlC6 (str "p/") (str "p/") = some resC6 := by decide
  exact ⟨hp, c6_sorted lcCp lcCp_total lcCp_trans xmlC6 (str "p/") (str "p/") resC6 hp⟩

/-! ## Claim C7 -/

/-- C7: per-entry tolerance of missing fields (lines 124-133): an entry
whose displayname regex does not match is dropped (`continue`), an entry
without a content-length element parses with size `0`, and a dropped entry
is local — the loop's result over the surrounding blocks is unchanged, so
processing continues with the other entries instead of failing the call. -/
theorem c7_missing_field_tolerance (fullPfx b : Str) (o : S3Object) (pre post : List Str) :
    (matchTag1 dnTagO dnTagC b = none → processBlock fullPfx b = some none) ∧
    (matchTag1 clTagO clTagC b = none → processBlock fullPfx b = some (some o) →
      o.size = some 0) ∧
    (processBlock fullPfx b = some none →
      collectEntries fullPfx (pre ++ b :: post) = collectEntries fullPfx (pre ++ post)) := by
  refine ⟨?_, ?_, ?_⟩
  · intro hdn
    have hd : displayNameOf b = [] := by simp [displayNameOf, hdn]
    cases hh : hrefOf b with
    | none => simp [processBlock, hh]
    | some href => simp [processBlock, hh, hd]
  · intro hcl hpb
    rcases processBlock_some_inv hpb with ⟨href, dec, _, _, _, _, _, ho⟩
    have hraw : rawSizeOf b = some 0 := by simp [rawSizeOf, hcl]
    rw [ho]
    simp [mkEntry, hraw]
  · intro hskip
    induction pre with
    | nil =>
      simp only [List.nil_append, collectEntries, hskip]
      cases hcp : collectEntries fullPfx post <;> simp
    | cons q qs ih =>
      simp only [List.cons_append, collectEntries]
      have ih2 : collectEntries fullPfx (qs.append (b :: post)) =
          collectEntries fullPfx (qs.append post) := ih
      rw [ih2]

def blockC7a : Str := str "<D:href>/x/q</D:href>"
def blockC7b : Str := str "<D:href>/x/f</D:href><D:displayname>f</D:displayname>"
def objC7 : S3Object := ⟨str "f", str "f", some 0, [], false⟩

/-- C7 witness: a block with no displayname is dropped, a block with no
content-length yields size 0, and dropping is local to the entry. -/
theorem c7_missing_field_tolerance_witness :
    processBlock (str "x/") blockC7a = some none ∧
    objC7.size = some 0 ∧
    collectEntries (str "x/") ([blockC7b] ++ blockC7a :: []) =
      collectEntries (str "x/") ([blockC7b] ++ []) := by
  refine ⟨?_, ?_, ?_⟩
  · exact (c7_missing_field_tolerance (str "x/") blockC7a objC7 [] []).1 (by decide)
  · exact (c7_missing_field_tolerance (str "x/") blockC7b objC7 [] []).2.1 (by decide) (by decide)
  · exact (c7_missing_field_tolerance (str "x/") blockC7a objC7 [blockC7b] []).2.2 (by decide)

/-! ## Claim C8 -/

/-- `true` iff the block's content-length text (when the element is
present) parses to a non-negative integer. -/
def clOkB (block : Str) : Bool :=
  match matchTag1 clTagO clTagC block with
  | none => true
  | some t =>
    match jsParseInt t with
    | none => false
    | some v => decide (0 ≤ v)

def xmlC8 : Str := str "<D:response><D:href>/n/f</D:href><D:displayname>f</D:displayname><D:getcontentlength>-5</D:getcontentlength></D:response><D:response><D:href>/n/g</D:href><D:displayname>g</D:displayname><D:getcontentlength>big</D:getcontentlength></D:response>"

def resC8 : ListObjectsResult :=
  ⟨[⟨str "f", str "f", some (-5), [], false⟩,
    ⟨str "g", str "g", none, [], false⟩],
   [], false, none⟩

/-- C8 counterexample: the claim "every object of the listing parse has a
non-negative integer size, for every input XML body including negative or
non-numeric content-length text" is false: a body whose content-length text
is `-5` produces an object of size `-5`, and text `big` produces the
non-integer `NaN` (modelled `none`). -/
theorem c8_counterexample :
    parsePropfindResponse lcCp xmlC8 (str "n/") (str "n/") = some resC8 ∧
    (∃ o ∈ resC8.objects, o.size = some (-5)) ∧
    (∃ o ∈ resC8.objects, o.size = none) := by
  refine ⟨by decide, ⟨⟨str "f", str "f", some (-5), [], false⟩, by decide, rfl⟩,
    ⟨⟨str "g", str "g", none, [], false⟩, by decide, rfl⟩⟩

/-- C8 (amended): directory entries always have size exactly 0, and every
object's size is a non-negative integer *provided* each present
content-length text parses (as JS `parseInt`) to a non-negative value — the
code stores `parseInt`'s result untouched, so negative numerals yield
negative sizes and non-numeric text yields `NaN`. -/
theorem c8_sizes (lc : Str → Str → Int) (xml fullPfx displayPfx : Str) (r : ListObjectsResult)
    (hcl : ∀ b ∈ responseBlocksF xml, clOkB b = true)
    (h : parsePropfindResponse lc xml fullPfx displayPfx = some r) :
    ∀ o ∈ r.objects, (∃ v : Int, o.size = some v ∧ 0 ≤ v) ∧
      (o.isDirectory = true → o.size = some 0) := by
  intro o ho
  rcases mem_objects_inv h o ho with ⟨b, hb, hpb⟩
  rcases processBlock_some_inv hpb with ⟨href, dec, _, _, _, _, _, ho2⟩
  subst ho2
  by_cases hdir : isDirOf b = true
  · refine ⟨⟨0, ?_, le_refl 0⟩, fun _ => ?_⟩ <;> simp [mkEntry, hdir]
  · have hraw : ∃ v : Int, rawSizeOf b = some v ∧ 0 ≤ v := by
      have hok := hcl b hb
      unfold clOkB at hok
      unfold rawSizeOf
      cases hm : matchTag1 clTagO clTagC b with
      | none => exact ⟨0, rfl, le_refl 0⟩
      | some t =>
        rw [hm] at hok
        dsimp only at hok ⊢
        cases hj : jsParseInt t with
        | none => rw [hj] at hok; cases hok
        | some v =>
          rw [hj] at hok
          dsimp only at hok
          simp only [decide_eq_true_eq] at hok
          exact ⟨v, rfl, hok⟩
    rcases hraw with ⟨v, hv, hv0⟩
    refine ⟨⟨v, ?_, hv0⟩, fun hd => ?_⟩
    · simp [mkEntry, hdir, hv]
    · simp [mkEntry, hdir] at hd

def xmlC8w : Str := str "<D:response><D:href>/n/ok.txt</D:href><D:displayname>ok.txt</D:displayname><D:getcontentlength>7</D:getcontentlength></D:response><D:response><D:href>/n/d/</D:href><D:resourcetype><D:collection/></D:resourcetype><D:displayname>d</D:displayname></D:response>"

def resC8w : ListObjectsResult :=
  ⟨[⟨str "d", str "d", some 0, [], true⟩,
    ⟨str "ok.txt", str "ok.txt", some 7, [], false⟩],
   [str "d"], false, none⟩

/-- C8 witness: with well-formed content lengths every size is a
non-negative integer and the directory's size is 0. -/
theorem c8_sizes_witness :
    parsePropfindResponse lcCp xmlC8w (str "n/") (str "n/") = some resC8w ∧
    ∀ o ∈ resC8w.objects, (∃ v : Int, o.size = some v ∧ 0 ≤ v) ∧
      (o.isDirectory = true → o.size = some 0) := by
  have hp : parsePropfindResponse lcCp xmlC8w (str "n/") (str "n/") = some resC8w := by decide
  exact ⟨hp, c8_sizes lcCp xmlC8w (str "n/") (str "n/") resC8w (by decide) hp⟩

/-! ## Claim C9 -/

/-- C9: `headObject` against a 404 response returns the successful "absent"
result (`.ok none`), an ok-range status returns the metadata record read
from the response headers, and every other status — 404 being checked
before the ok test and thus the sole non-ok status not failing — raises the
typed failure naming the operation and the status (lines 303-334). -/
theorem c9_head_absent (resp : WebResponse) :
    (resp.status = 404 → headObjectResult (.ok resp) = .ok none) ∧
    (respOk resp = true → headObjectResult (.ok resp) =
      .ok (some ⟨jsParseInt (jsOrOpt (resp.headers (str "content-length")) (str "0")),
                 jsOrOpt (resp.headers (str "content-type")) (str "application/octet-stream"),
                 jsOrOpt (resp.headers (str "last-modified")) (str "")⟩)) ∧
    (resp.status ≠ 404 → respOk resp = false → headObjectResult (.ok resp) =
      .error (str "WebDAV " ++ str "headObject" ++ str " failed: " ++
        (str "WebDAV HeadObject failed: " ++ natStr resp.status))) := by
  refine ⟨?_, ?_, ?_⟩
  · intro h404
    simp [headObjectResult, wrapOp, h404]
  · intro hok
    have h404 : ¬ resp.status = 404 := by
      simp only [respOk, Bool.and_eq_true, decide_eq_true_eq] at hok
      omega
    simp [headObjectResult, wrapOp, h404, hok]
  · intro h404 hnok
    simp [headObjectResult, wrapOp, h404, hnok]

def respW404 : WebResponse := ⟨404, fun _ => none, []⟩
def respW200 : WebResponse :=
  ⟨200, fun k => if k = str "content-length" then some (str "5") else none, []⟩
def respW500 : WebResponse := ⟨500, fun _ => none, str "oops"⟩

/-- C9 witness: 404 is absent, 200 yields the metadata record, 500 fails. -/
theorem c9_head_absent_witness :
    headObjectResult (.ok respW404) = .ok none ∧
    headObjectResult (.ok respW200) =
      .ok (some ⟨some 5, str "application/octet-stream", str ""⟩) ∧
    headObjectResult (.ok respW500) =
      .error (str "WebDAV " ++ str "headObject" ++ str " failed: " ++
        (str "WebDAV HeadObject failed: " ++ natStr respW500.status)) := by
  refine ⟨(c9_head_absent respW404).1 rfl, ?_, ?_⟩
  · have h := (c9_head_absent respW200).2.1 (by decide)
    rw [h]
    rfl
  · exact (c9_head_absent respW500).2.2 (by decide) (by decide)

/-! ## Claim C10 -/

/-- C10: `deleteObject` succeeds exactly on the ok range or 204,
`createFolder` exactly on the ok range or 201, `copyObject` exactly on the
ok range, 201 or 204; every other status produces the typed failure message
naming the operation together with the status and the body text that was
read; and a transport-level error is re-wrapped into the same per-operation
failure rather than escaping raw (lines 232-301). -/
theorem c10_status_mapping (resp : WebResponse) (e : Str) :
    (deleteObjectResult (.ok resp) = .ok () ↔ (respOk resp = true ∨ resp.status = 204)) ∧
    (createFolderResult (.ok resp) = .ok () ↔ (respOk resp = true ∨ resp.status = 201)) ∧
    (copyObjectResult (.ok resp) = .ok () ↔
      (respOk resp = true ∨ resp.status = 201 ∨ resp.status = 204)) ∧
    (respOk resp = false → resp.status ≠ 204 → deleteObjectResult (.ok resp) =
      .error (str "WebDAV " ++ str "deleteObject" ++ str " failed: " ++
        (str "WebDAV DeleteObject failed: " ++ natStr resp.status ++ str " " ++ resp.bodyText))) ∧
    (respOk resp = false → resp.status ≠ 201 → createFolderResult (.ok resp) =
      .error (str "WebDAV " ++ str "createFolder" ++ str " failed: " ++
        (str "WebDAV MKCOL failed: " ++ natStr resp.status ++ str " " ++ resp.bodyText))) ∧
    (respOk resp = false → resp.status ≠ 201 → resp.status ≠ 204 → copyObjectResult (.ok resp) =
      .error (str "WebDAV " ++ str "copyObject" ++ str " failed: " ++
        (str "WebDAV COPY failed: " ++ natStr resp.status ++ str " " ++ resp.bodyText))) ∧
    (deleteObjectResult (.error e) =
      .error (str "WebDAV " ++ str "deleteObject" ++ str " failed: " ++ e)) ∧
    (createFolderResult (.error e) =
      .error (str "WebDAV " ++ str "createFolder" ++ str " failed: " ++ e)) ∧
    (copyObjectResult (.error e) =
      .error (str "WebDAV " ++ str "copyObject" ++ str " failed: " ++ e)) := by
  refine ⟨?_, ?_, ?_, ?_, ?_, ?_, rfl, rfl, rfl⟩
  · by_cases hc : respOk resp = false ∧ resp.status ≠ 204
    · simp only [deleteObjectResult, wrapOp, if_pos hc]
      simp [hc.1, hc.2]
    · simp only [deleteObjectResult, wrapOp, if_neg hc]
      push_neg at hc
      constructor
      · intro _
        by_cases hr : respOk resp = true
        · exact Or.inl hr
        · exact Or.inr (hc (by simpa using hr))
      · intro _; trivial
  · by_cases hc : respOk resp = false ∧ resp.status ≠ 201
    · simp only [createFolderResult, wrapOp, if_pos hc]
      simp [hc.1, hc.2]
    · simp only [createFolderResult, wrapOp, if_neg hc]
      push_neg at hc
      constructor
      · intro _
        by_cases hr : respOk resp = true
        · exact Or.inl hr
        · exact Or.inr (hc (by simpa using hr))
      · intro _; trivial
  · by_cases hc : respOk resp = false ∧ resp.status ≠ 201 ∧ resp.status ≠ 204
    · simp only [copyObjectResult, wrapOp, if_pos hc]
      simp [hc.1, hc.2.1, hc.2.2]
    · simp only [copyObjectResult, wrapOp, if_neg hc]
      push_neg at hc
      constructor
      · intro _
        by_cases hr : respOk resp = true
        · exact Or.inl hr
        · by_cases h201 : resp.status = 201
          · exact Or.inr (Or.inl h201)
          · exact Or.inr (Or.inr (hc (by simpa using hr) h201))
      · intro _; trivial
  · intro h1 h2
    simp [deleteObjectResult, wrapOp, h1, h2]
  · intro h1 h2
    simp [createFolderResult, wrapOp, h1, h2]
  · intro h1 h2 h3
    simp [copyObjectResult, wrapOp, h1, h2, h3]

def respW204 : WebResponse := ⟨204, fun _ => none, []⟩
def respW201 : WebResponse := ⟨201, fun _ => none, []⟩

/-- C10 witness: 204 deletes and copies succeed, 201 folder creation
succeeds, a 500 delete fails with the typed message, and a transport error
is re-wrapped with the operation name. -/
theorem c10_status_mapping_witness :
    deleteObjectResult (.ok respW204) = .ok () ∧
    createFolderResult (.ok respW201) = .ok () ∧
    copyObjectResult (.ok respW204) = .ok () ∧
    deleteObjectResult (.ok respW500) =
      .error (str "WebDAV " ++ str "deleteObject" ++ str " failed: " ++
        (str "WebDAV DeleteObject failed: " ++ natStr respW500.status ++ str " " ++
          respW500.bodyText)) ∧
    copyObjectResult (.error (str "ECONNREFUSED")) =
      .error (str "WebDAV " ++ str "copyObject" ++ str " failed: " ++ str "ECONNREFUSED") := by
  refine ⟨?_, ?_, ?_, ?_, ?_⟩
  · exact (c10_status_mapping respW204 []).1.mpr (Or.inr rfl)
  · exact (c10_status_mapping respW201 []).2.1.mpr (Or.inr rfl)
  · exact (c10_status_mapping respW204 []).2.2.1.mpr (Or.inr (Or.inr rfl))
  · exact (c10_status_mapping respW500 []).2.2.2.1 (by decide) (by decide)
  · exact (c10_status_mapping respW204 (str "ECONNREFUSED")).2.2.2.2.2.2.2.2
